import Mathlib

/-!
Verification development for the MCU projection transforms.

The Python source manipulates pandas DataFrames; here tables are embedded as
lists of string cells, quantities as rationals, and dates as explicit
(year, month, day) triples with proleptic-Gregorian day arithmetic.
Each definition is a direct translation of the function named in its
doc comment.
-/

namespace MCU

/-! ### Character and string utilities (Python `str` methods on `List Char`) -/

/-- The ASCII whitespace characters recognised by Python `str.strip` /
regex `\s` (the source data is ASCII). -/
def wsChars : List Char := [' ', '\t', '\n', '\r', '\x0b', '\x0c']

def isWs (c : Char) : Bool := wsChars.contains c

/-- Python `str.strip()` : drop leading and trailing whitespace. -/
def pyStrip (l : List Char) : List Char :=
  ((l.dropWhile isWs).reverse.dropWhile isWs).reverse

/-- ASCII lower-casing, as done by Python `str.lower()` on ASCII data. -/
def asciiLower (c : Char) : Char :=
  if 'A' ≤ c ∧ c ≤ 'Z' then Char.ofNat (c.toNat + 32) else c

def pyLower (l : List Char) : List Char := l.map asciiLower

/-- Python `in` on strings: substring containment. -/
def pyIn (needle hay : List Char) : Bool := decide (needle <:+: hay)

def isDigitC (c : Char) : Bool := decide ('0' ≤ c ∧ c ≤ '9')

def digitVal (c : Char) : Nat := c.toNat - 48

def natOfDigits (l : List Char) : Nat := l.foldl (fun a c => 10 * a + digitVal c) 0

/-- Split a character list on a separator character (like Python `str.split`
with a single-character separator, or the piecewise reading used by the
format matchers below). -/
def splitOnChar (sep : Char) : List Char → List (List Char)
  | [] => [[]]
  | c :: cs =>
    match splitOnChar sep cs with
    | [] => [[c]]
    | h :: t => if c = sep then [] :: h :: t else (c :: h) :: t

/-- Replace every run of whitespace by a single space
(Python `re.sub(r"\s+", " ", s)`).  The boolean flag records whether the
previous character was part of a whitespace run. -/
def collapseWsAux : Bool → List Char → List Char
  | _, [] => []
  | inRun, c :: cs =>
    if isWs c then
      if inRun then collapseWsAux true cs else ' ' :: collapseWsAux true cs
    else c :: collapseWsAux false cs

def collapseWs (l : List Char) : List Char := collapseWsAux false l

/-! ### Month name tables -/

/-- Lower-case month abbreviations, as matched by `strptime` `%b`. -/
def abbrevMonths : List (List Char) :=
  ["jan".data, "feb".data, "mar".data, "apr".data, "may".data, "jun".data,
   "jul".data, "aug".data, "sep".data, "oct".data, "nov".data, "dec".data]

/-- Lower-case full month names, as matched by `strptime` `%B`. -/
def fullMonths : List (List Char) :=
  ["january".data, "february".data, "march".data, "april".data, "may".data,
   "june".data, "july".data, "august".data, "september".data, "october".data,
   "november".data, "december".data]

/-- Capitalised month abbreviations as produced by `strftime("%b")` in the
C locale. -/
def capAbbrevMonths : List (List Char) :=
  ["Jan".data, "Feb".data, "Mar".data, "Apr".data, "May".data, "Jun".data,
   "Jul".data, "Aug".data, "Sep".data, "Oct".data, "Nov".data, "Dec".data]

/-- Index (1-based) of a name in a table of names, or `none`. -/
def nameIdx (s : List Char) : List (List Char) → Nat → Option Nat
  | [], _ => none
  | n :: ns, i => if s = n then some i else nameIdx s ns (i + 1)

def monthOfAbbrev (s : List Char) : Option Nat := nameIdx (pyLower s) abbrevMonths 1

def monthOfFull (s : List Char) : Option Nat := nameIdx (pyLower s) fullMonths 1

/-! ### Month parsing (`parse_month_string` in `NDC_Calculation.py`) -/

/-- Exactly two ASCII digits, read as a number (`strptime` `%y`). -/
def twoDigits? (l : List Char) : Option Nat :=
  if l.length = 2 ∧ l.all isDigitC then some (natOfDigits l) else none

/-- Exactly four ASCII digits, read as a number (`strptime` `%Y`). -/
def fourDigits? (l : List Char) : Option Nat :=
  if l.length = 4 ∧ l.all isDigitC then some (natOfDigits l) else none

/-- The POSIX two-digit-year pivot used by Python `strptime` `%y`:
69–99 map into the 1900s, 0–68 into the 2000s. -/
def yearOfYY (n : Nat) : Int := if 69 ≤ n then 1900 + n else 2000 + n

/-- pandas `Timestamp` bounds (1677-09-21 .. 2262-04-11) at month
granularity: `pd.to_datetime` raises `OutOfBoundsDatetime` outside them,
which `parse_month_string` catches, so out-of-range years parse to
nothing.  The first of month (y, m) is representable iff this holds. -/
def tsInBounds (y : Int) (m : Nat) : Bool :=
  decide ((1677 < y ∨ (y = 1677 ∧ 10 ≤ m)) ∧ (y < 2262 ∨ (y = 2262 ∧ m ≤ 4)))

/-- Format `"%b-%y"` / `"%B-%y"` depending on the name table. -/
def tryNameHyphenYY (names : List (List Char)) (l : List Char) : Option (Int × Nat) :=
  match splitOnChar '-' l with
  | [p1, p2] =>
    match nameIdx (pyLower p1) names 1, twoDigits? p2 with
    | some m, some yy => some (yearOfYY yy, m)
    | _, _ => none
  | _ => none

/-- Format `"%b-%Y"` / `"%B-%Y"`. -/
def tryNameHyphenYYYY (names : List (List Char)) (l : List Char) : Option (Int × Nat) :=
  match splitOnChar '-' l with
  | [p1, p2] =>
    match nameIdx (pyLower p1) names 1, fourDigits? p2 with
    | some m, some y =>
      if tsInBounds (Int.ofNat y) m then some ((Int.ofNat y : Int), m) else none
    | _, _ => none
  | _ => none

/-- Format `"%b %y"` / `"%B %y"` (space separator). -/
def tryNameSpaceYY (names : List (List Char)) (l : List Char) : Option (Int × Nat) :=
  match splitOnChar ' ' l with
  | [p1, p2] =>
    match nameIdx (pyLower p1) names 1, twoDigits? p2 with
    | some m, some yy => some (yearOfYY yy, m)
    | _, _ => none
  | _ => none

/-- Format `"%b%y"` / `"%B%y"`: a month name immediately followed by two
digits, consuming the whole string. -/
def tryNameConcatYY (names : List (List Char)) (l : List Char) : Option (Int × Nat) :=
  match (names.filter (fun n => n <+: pyLower l)).head? with
  | some n =>
    match nameIdx n names 1, twoDigits? (l.drop n.length) with
    | some m, some yy => some (yearOfYY yy, m)
    | _, _ => none
  | none => none

/-- Format `"%Y-%b"` / `"%Y-%B"`. -/
def tryYYYYHyphenName (names : List (List Char)) (l : List Char) : Option (Int × Nat) :=
  match splitOnChar '-' l with
  | [p1, p2] =>
    match fourDigits? p1, nameIdx (pyLower p2) names 1 with
    | some y, some m =>
      if tsInBounds (Int.ofNat y) m then some ((Int.ofNat y : Int), m) else none
    | _, _ => none
  | _ => none

/-- Models the last-resort `pd.to_datetime(s, errors="coerce")` call: the
library can infer general date strings (here the ISO `YYYY-MM-DD` shape,
truncated to its month); on anything else it yields `NaT`, i.e. `none`.
The real library accepts further exotic spellings that never occur in this
development; no theorem below relies on this fallback succeeding. -/
def pandasInfer (l : List Char) : Option (Int × Nat) :=
  match splitOnChar '-' l with
  | [p1, p2, p3] =>
    match fourDigits? p1, twoDigits? p2, twoDigits? p3 with
    | some y, some m, some d =>
      if 1 ≤ m ∧ m ≤ 12 ∧ 1 ≤ d ∧ d ≤ 31 ∧ tsInBounds (Int.ofNat y) m then
        some ((Int.ofNat y : Int), m)
      else none
    | _, _, _ => none
  | _ => none

def orElseO (a b : Option (Int × Nat)) : Option (Int × Nat) :=
  match a with
  | some x => some x
  | none => b

/-- `parse_month_string` (NDC_Calculation.py lines 33–55): normalise
separators and whitespace, then try the ten explicit `strptime` formats in
order, then fall back to pandas inference.  Returns the (year, month) of
the resulting first-of-month timestamp, or `none` for `NaT`. -/
def parse_month_string (s : String) : Option (Int × Nat) :=
  let l := collapseWs ((pyStrip s.data).map
    (fun c => if c = '.' ∨ c = '_' ∨ c = '/' ∨ c = '\\' then '-' else c))
  orElseO (tryNameHyphenYY abbrevMonths l)
  (orElseO (tryNameHyphenYY fullMonths l)
  (orElseO (tryNameHyphenYYYY abbrevMonths l)
  (orElseO (tryNameHyphenYYYY fullMonths l)
  (orElseO (tryNameSpaceYY abbrevMonths l)
  (orElseO (tryNameSpaceYY fullMonths l)
  (orElseO (tryNameConcatYY abbrevMonths l)
  (orElseO (tryNameConcatYY fullMonths l)
  (orElseO (tryYYYYHyphenName abbrevMonths l)
  (orElseO (tryYYYYHyphenName fullMonths l)
  (pandasInfer l))))))))))

/-! ### Month column detection (`detect_month_columns`) -/

/-- The `_MONTH_KEYWORDS` list of NDC_Calculation.py. -/
def monthKeywords : List (List Char) :=
  abbrevMonths ++ fullMonths

/-- `re.search(r"\d{2,4}", s)` succeeds iff two consecutive digits occur. -/
def hasTwoDigitRun : List Char → Bool
  | a :: b :: rest => (isDigitC a && isDigitC b) || hasTwoDigitRun (b :: rest)
  | _ => false

/-- A column header "looks like" a month header (`detect_month_columns`):
its lower-cased text contains a month keyword and a 2-to-4-digit number. -/
def isMonthCol (h : List Char) : Bool :=
  monthKeywords.any (fun kw => pyIn kw (pyLower h)) && hasTwoDigitRun (pyLower h)

/-! ### The display format `strftime("%b-%y")` -/

/-- Zero-padded two-digit decimal rendering of `n % 100`. -/
def twoDigitChars (n : Nat) : List Char :=
  [Nat.digitChar (n / 10 % 10), Nat.digitChar (n % 10)]

/-- `strftime("%b-%y")` on the first of month (y, m): capitalised month
abbreviation, hyphen, zero-padded two-digit year. -/
def fmtLabel (y : Int) (m : Nat) : String :=
  String.mk ((capAbbrevMonths.getD (m - 1) []) ++ '-' :: twoDigitChars (y % 100).toNat)

/-! ### Proleptic Gregorian day arithmetic (`datetime.timedelta` subtraction) -/

def isLeap (y : Int) : Bool := (y % 4 == 0 && y % 100 != 0) || (y % 400 == 0)

def daysInMonth (y : Int) (m : Nat) : Nat :=
  if m = 2 then (if isLeap y then 29 else 28)
  else if m = 4 ∨ m = 6 ∨ m = 9 ∨ m = 11 then 30 else 31

def prevYM : Int × Nat → Int × Nat
  | (y, m) => if m = 1 then (y - 1, 12) else (y, m - 1)

/-- Subtract `k` days from the first day of month (y, m), with a fuel
argument for structural recursion; each step walks back one whole month,
so fuel `k` is always sufficient (a month has at least 28 days). -/
def subDaysFromFirstAux : Nat → Int × Nat → Nat → Int × Nat × Nat
  | 0, (y, m), _ => (y, m, 1)
  | fuel + 1, (y, m), k =>
    if k = 0 then (y, m, 1)
    else
      let p := prevYM (y, m)
      let d := daysInMonth p.1 p.2
      if k ≤ d then (p.1, p.2, d + 1 - k)
      else subDaysFromFirstAux fuel p (k - d)

/-- `Timestamp(y, m, 1) - timedelta(days = k)` as a (year, month, day)
triple. -/
def subDaysFromFirst (ym : Int × Nat) (k : Nat) : Int × Nat × Nat :=
  subDaysFromFirstAux k ym k

/-! ### Supplier-country classification and `adjust_dt` -/

/-- The local-supplier test of `adjust_dt` (NDC_Calculation.py line 101):
on the stripped, lower-cased country text,
`"sri lanka" in c or ("sri" in c and "lanka" in c) or c in ("sl", "sri", "srilanka")`. -/
def isLocalCountry (c : String) : Bool :=
  let s := pyLower (pyStrip c.data)
  pyIn "sri lanka".data s ||
    (pyIn "sri".data s && pyIn "lanka".data s) ||
    (s = "sl".data || s = "sri".data || s = "srilanka".data)

/-- `adjust_dt` (NDC_Calculation.py lines 98–104): subtract 93 days from
the first of the month for a local supplier country, 120 days otherwise. -/
def adjust_dt (ym : Int × Nat) (country : String) : Int × Nat × Nat :=
  if isLocalCountry country then subDaysFromFirst ym 93
  else subDaysFromFirst ym 120

/-- The (year, month) part of a full date. -/
def ymOf (d : Int × Nat × Nat) : Int × Nat := (d.1, d.2.1)

/-- Modelled from the spec: "Local → subtract 3 calendar months; foreign →
subtract 4 calendar months.  Month-borrow arithmetic must correctly roll
over the year."  Pure calendar-month subtraction, for comparison with the
day-based arithmetic the code actually performs. -/
def monthBack : Int × Nat → Int × Nat
  | (y, m) => if m = 1 then (y - 1, 12) else (y, m - 1)

def calendarMonthsBack (ym : Int × Nat) : Nat → Int × Nat
  | 0 => ym
  | k + 1 => calendarMonthsBack (monthBack ym) k

end MCU

namespace MCU

/-! ## Claims C1–C3: the lead-time adjuster -/

/-- C1 — the claim states that for a local country the adjusted month is
exactly 3 calendar months earlier (Jan-2025 to Oct-2024, Nov-25 to
Aug-25).  The code instead subtracts `timedelta(days=93)` from the first
of the month, which always crosses four month boundaries (the three
preceding months never total more than 92 days), so Nov-2025 with
country "Sri Lanka" lands on 2025-07-31 (column "Jul-25", four months
earlier) and Jan-2025 lands on 2024-09-30 (column "Sep-24"). -/
theorem c1_local_adjust_lands_four_months_back :
    adjust_dt (2025, 11) "Sri Lanka" = (2025, 7, 31) ∧
    fmtLabel 2025 7 = "Jul-25" ∧
    adjust_dt (2025, 1) "Sri Lanka" = (2024, 9, 30) ∧
    fmtLabel 2024 9 = "Sep-24" := by decide

set_option maxHeartbeats 3200000 in
/-- C2 — for every (year, month) and every country string the code
classifies as non-local, `adjust_dt` (subtracting `timedelta(days=120)`
from the first of the month) lands in the month exactly 4 calendar months
earlier, with correct year rollover: the four preceding months always
total between 120 and 123 days. -/
theorem c2_foreign_offset_exactly_four_months (y : Int) (m : Nat) (c : String)
    (h1 : 1 ≤ m) (h2 : m ≤ 12) (hc : isLocalCountry c = false) :
    ymOf (adjust_dt (y, m) c) = calendarMonthsBack (y, m) 4 := by
  interval_cases m <;>
  first
  | (simp [adjust_dt, hc, subDaysFromFirst, subDaysFromFirstAux, prevYM, daysInMonth,
        ymOf, calendarMonthsBack, monthBack])
  | (rcases hl : isLeap y <;>
     simp [adjust_dt, hc, subDaysFromFirst, subDaysFromFirstAux, prevYM, daysInMonth, hl,
        ymOf, calendarMonthsBack, monthBack])

/-- Witness for C2: the Nov-25 / "India" scenario of the claim: the
adjusted month is (2025, 7), whose display label is "Jul-25". -/
theorem c2_foreign_offset_witness :
    isLocalCountry "India" = false ∧
    ymOf (adjust_dt (2025, 11) "India") = calendarMonthsBack (2025, 11) 4 ∧
    calendarMonthsBack (2025, 11) 4 = (2025, 7) ∧
    fmtLabel 2025 7 = "Jul-25" :=
  ⟨by decide,
   c2_foreign_offset_exactly_four_months 2025 11 "India" (by decide) (by decide) (by decide),
   by decide, by decide⟩

/-- C3 counterexample — the claim states that a country containing the
token "lanka" alone is classified local; the code classifies "Lanka" as
foreign (its test is `"sri lanka" in c or ("sri" in c and "lanka" in c)
or c in ("sl", "sri", "srilanka")`, which "Lanka" fails even though it
contains the substring "lanka"). -/
theorem c3_counterexample_lanka_alone_is_foreign :
    isLocalCountry "Lanka" = false ∧
    pyIn "lanka".data (pyLower (pyStrip "Lanka".data)) = true := by decide

/-- C3 (amended) — a supplier-country string is local exactly when its
stripped, lower-cased text either contains both the substring "sri" and
the substring "lanka", or is exactly "sl", "sri" or "srilanka"; every
other string is foreign.  (The `"sri lanka" in c` disjunct of the source
is subsumed by the both-substrings disjunct.) -/
theorem c3_isLocalCountry_characterisation (c : String) :
    isLocalCountry c = true ↔
      ((pyIn "sri".data (pyLower (pyStrip c.data)) = true ∧
        pyIn "lanka".data (pyLower (pyStrip c.data)) = true) ∨
       pyLower (pyStrip c.data) = "sl".data ∨
       pyLower (pyStrip c.data) = "sri".data ∨
       pyLower (pyStrip c.data) = "srilanka".data) := by
  have hs : "sri".data <:+: "sri lanka".data := by decide
  have hl : "lanka".data <:+: "sri lanka".data := by decide
  simp only [isLocalCountry, pyIn, Bool.or_eq_true, Bool.and_eq_true, decide_eq_true_eq]
  constructor
  · intro h
    rcases h with (h | h) | (h | h) | h
    · exact Or.inl ⟨hs.trans h, hl.trans h⟩
    · exact Or.inl ⟨h.1, h.2⟩
    · exact Or.inr (Or.inl h)
    · exact Or.inr (Or.inr (Or.inl h))
    · exact Or.inr (Or.inr (Or.inr h))
  · intro h
    rcases h with h | h | h | h
    · exact Or.inl (Or.inr ⟨h.1, h.2⟩)
    · exact Or.inr (Or.inl (Or.inl h))
    · exact Or.inr (Or.inl (Or.inr h))
    · exact Or.inr (Or.inr h)

end MCU

namespace MCU

/-! ### CKUW / CKUM transforms -/

/-- A pandas DataFrame viewed column-major: ordered (name, cells) pairs. -/
def startsSum (s : List Char) : Bool := decide ("sum".data <+: pyLower s)

def stripNameCol (c : String × List String) : String × List String :=
  (String.mk (pyStrip c.1.data), c.2)

/-- `transform_ckuw_plm_to_mcu` (ckuw.py lines 16–21): strip the column
names, then keep only the columns whose lower-cased name does not start
with "sum"; cells are untouched. -/
def transform_ckuw_plm_to_mcu (t : List (String × List String)) : List (String × List String) :=
  (t.map stripNameCol).filter (fun c => !startsSum c.1.data)

/-- `transform_ckum_plm_to_mcu` (ckum.py lines 17–27): same logic. -/
def transform_ckum_plm_to_mcu (t : List (String × List String)) : List (String × List String) :=
  (t.map stripNameCol).filter (fun c => !startsSum c.1.data)

theorem c10_ckuw_frame_effect (t : List (String × List String)) :
    (transform_ckuw_plm_to_mcu t).Sublist (t.map stripNameCol) ∧
    (∀ p ∈ transform_ckuw_plm_to_mcu t,
        startsSum p.1.data = false ∧
        ∃ q ∈ t, String.mk (pyStrip q.1.data) = p.1 ∧ q.2 = p.2) ∧
    (∀ q ∈ t, startsSum (pyStrip q.1.data) = false →
        stripNameCol q ∈ transform_ckuw_plm_to_mcu t) ∧
    transform_ckum_plm_to_mcu t = transform_ckuw_plm_to_mcu t := by
  refine ⟨List.filter_sublist _, ?_, ?_, rfl⟩
  · intro p hp
    rcases List.mem_filter.1 hp with ⟨hmem, hkeep⟩
    rcases List.mem_map.1 hmem with ⟨q, hq, hmap⟩
    refine ⟨by simpa using hkeep, q, hq, ?_, ?_⟩
    · rw [← hmap]; rfl
    · rw [← hmap]; rfl
  · intro q hq hkeep
    refine List.mem_filter.2 ⟨List.mem_map_of_mem _ hq, ?_⟩
    simp [stripNameCol, hkeep]

theorem c10_ckuw_frame_effect_witness :
    stripNameCol ("Article", ["A", "B"]) ∈
      transform_ckuw_plm_to_mcu [("  Sum Total ", ["1", "2"]), ("Article", ["A", "B"])] ∧
    transform_ckuw_plm_to_mcu [("  Sum Total ", ["1", "2"]), ("Article", ["A", "B"])] =
      [("Article", ["A", "B"])] :=
  ⟨(c10_ckuw_frame_effect [("  Sum Total ", ["1", "2"]), ("Article", ["A", "B"])]).2.2.1
      ("Article", ["A", "B"]) (by decide) (by decide),
   by decide⟩

/-! ### Column detection: `detect_column` (VSBra.py) and `find_best_col` (PinkBra.py) -/

/-- `detect_column` (VSBra.py lines 34–41): return the first column whose
lower-cased name contains any of the lower-cased keywords. -/
def detect_column (cols : List String) (keywords : List String) : Option String :=
  cols.find? (fun c => keywords.any (fun kw => pyIn (pyLower kw.data) (pyLower c.data)))

/-- `deep_clean_colname` (PinkBra.py lines 18–29). -/
def deepCleanCol (s : String) : List Char :=
  pyStrip ((((s.data.map (fun c => if c = ' ' then ' ' else c)).filter
      (fun c => c ≠ ' ')).map
      (fun c => if c = '\t' ∨ c = '\n' then ' ' else c)).map
      (fun c => if c = '–' ∨ c = '—' then '-' else c))

def joinUnderscore : List (List Char) → List Char
  | [] => []
  | [p] => p
  | p :: q :: ps => p ++ '_' :: joinUnderscore (q :: ps)

/-- The normalised key of `normalize_map` (PinkBra.py lines 31–49):
deep-clean, lower-case, map space/hyphen/dot/slash to underscore, then
collapse consecutive underscores and drop empty parts. -/
def normKey (s : String) : List Char :=
  joinUnderscore (((splitOnChar '_'
    ((pyLower (deepCleanCol s)).map
      (fun c => if c = ' ' ∨ c = '-' ∨ c = '.' ∨ c = '/' then '_' else c))).filter
    (fun p => p ≠ [])))

/-- `find_best_col` (PinkBra.py lines 51–66): prefer the first column whose
normalised key contains all of `kwsAll`; otherwise the first whose key
contains any of `kwsAny`.  The map is the (original name, normalised key)
association in column order. -/
def find_best_col (m : List (String × List Char)) (kwsAny kwsAll : List (List Char)) :
    Option String :=
  match (if kwsAll ≠ [] then m.find? (fun x => kwsAll.all (fun k => pyIn k x.2)) else none) with
  | some x => some x.1
  | none =>
    if kwsAny ≠ [] then (m.find? (fun x => kwsAny.any (fun k => pyIn k x.2))).map (·.1)
    else none

theorem c9_counterexample_header_claimed_twice :
    detect_column ["Supplier Name"] ["vendor", "supplier name"] = some "Supplier Name" ∧
    detect_column ["Supplier Name"] ["supplier"] = some "Supplier Name" ∧
    find_best_col [("Supplier Country", normKey "Supplier Country")]
        ["supplier".data, "vendor".data] [] = some "Supplier Country" ∧
    find_best_col [("Supplier Country", normKey "Supplier Country")]
        ["supplier_country".data, "suppliercoo".data, "country".data] []
      = some "Supplier Country" := by decide

theorem c9_detect_column_first_match (cols keywords : List String) (c : String)
    (h : detect_column cols keywords = some c) :
    ∃ pre post, cols = pre ++ c :: post ∧
      keywords.any (fun kw => pyIn (pyLower kw.data) (pyLower c.data)) = true ∧
      ∀ c2 ∈ pre, keywords.any (fun kw => pyIn (pyLower kw.data) (pyLower c2.data)) = false := by
  induction cols with
  | nil => simp [detect_column] at h
  | cons a rest ih =>
    by_cases ha : keywords.any (fun kw => pyIn (pyLower kw.data) (pyLower a.data)) = true
    · have : a = c := by
        simpa [detect_column, List.find?, ha] using h
      subst this
      exact ⟨[], rest, rfl, ha, by simp⟩
    · have ha2 : keywords.any (fun kw => pyIn (pyLower kw.data) (pyLower a.data)) = false := by
        simpa using ha
      have h2 : detect_column rest keywords = some c := by
        simpa [detect_column, List.find?, ha2] using h
      rcases ih h2 with ⟨pre, post, hsplit, hc, hpre⟩
      refine ⟨a :: pre, post, by simp [hsplit], hc, ?_⟩
      intro c2 hc2
      rcases List.mem_cons.1 hc2 with rfl | hc2
      · exact ha2
      · exact hpre c2 hc2

theorem c9_detect_column_first_match_witness :
    ∃ pre post, (["Article No", "Supplier Name"] : List String) = pre ++ "Supplier Name" :: post ∧
      (["supplier"] : List String).any
        (fun kw => pyIn (pyLower kw.data) (pyLower "Supplier Name".data)) = true ∧
      ∀ c2 ∈ pre, (["supplier"] : List String).any
        (fun kw => pyIn (pyLower kw.data) (pyLower c2.data)) = false :=
  c9_detect_column_first_match ["Article No", "Supplier Name"] ["supplier"] "Supplier Name"
    (by decide)

end MCU

namespace MCU

/-! ### Quantity cleaning (NDC_Calculation.py lines 93-95) -/

/-- Quantities: exact unnormalised fractions (numerator, denominator),
the idealisation of the pandas float values.  Kept unnormalised so that
all arithmetic is kernel-computable. -/
abbrev QV := Int × Nat

def qAdd (a b : QV) : QV := (a.1 * (b.2 : Int) + b.1 * (a.2 : Int), a.2 * b.2)

def qSum (l : List QV) : QV := l.foldr qAdd ((0 : Int), (1 : Nat))

/-- The rational value of a quantity. -/
def qToRat (q : QV) : ℚ := (q.1 : ℚ) / (q.2 : ℚ)

/-- Parse a decimal number string (optional sign, integer part, optional
fraction), as `pd.to_numeric` does on the numeric spellings occurring
here; `none` models NaN. -/
def parseNumQ (l : List Char) : Option QV :=
  let sgn : Int := match l with | '-' :: _ => -1 | _ => 1
  let l1 : List Char := match l with | '-' :: r => r | '+' :: r => r | _ => l
  let ip := l1.takeWhile isDigitC
  let rest := l1.dropWhile isDigitC
  match rest with
  | [] => if ip = [] then none else some (sgn * (natOfDigits ip : Int), 1)
  | '.' :: fr =>
    if fr.all isDigitC ∧ ip ≠ [] then
      some (sgn * ((natOfDigits ip : Int) * (10 : Int) ^ fr.length + (natOfDigits fr : Int)),
        (10 : Nat) ^ fr.length)
    else none
  | _ => none

/-- `melted["Qty"].astype(str).str.replace(",", "").str.strip()` followed by
`pd.to_numeric(..., errors="coerce").fillna(0)`. -/
def cleanQty (s : String) : QV :=
  (parseNumQ (pyStrip (s.data.filter (fun c => c ≠ ',')))).getD ((0 : Int), (1 : Nat))

/-! ### The NDC wide transform (`transform_ndc`, NDC_Calculation.py lines 58-133) -/

/-- A raw uploaded worksheet: ordered headers and rows of string cells. -/
structure NTable where
  headers : List String
  rows : List (List String)
  deriving DecidableEq

/-- The final wide table: metadata column names, chronologically ordered
month column labels, and one row per metadata key with one summed quantity
per month column. -/
structure WideOut where
  metaNames : List String
  months : List String
  rows : List (List String × List QV)
  deriving DecidableEq

/-- Header cleaning (line 64): strip, then replace newlines and carriage
returns by spaces. -/
def cleanHeader (s : String) : String :=
  String.mk ((pyStrip s.data).map (fun c => if c = '\n' ∨ c = '\r' then ' ' else c))

def ndcCleanHeaders (t : NTable) : List String := t.headers.map cleanHeader

/-- Line 69: `c.strip().lower() == "supplier"`. -/
def isSupplierHeader (h : String) : Bool := pyLower (pyStrip h.data) = "supplier".data

/-- Line 70: `"supplier country" in c.strip().lower()`. -/
def isCountryHeader (h : String) : Bool := pyIn "supplier country".data (pyLower (pyStrip h.data))

/-- Indices of the detected month columns (`detect_month_columns`). -/
def monthIdxs (hs : List String) : List Nat :=
  (List.range hs.length).filter (fun j => isMonthCol (hs.getD j "").data)

/-- Indices of the `id_vars` (all non-month columns, line 81). -/
def idIdxs (hs : List String) : List Nat :=
  (List.range hs.length).filter (fun j => !isMonthCol (hs.getD j "").data)

def countryIdx (hs : List String) : Option Nat :=
  (List.range hs.length).find? (fun j => isCountryHeader (hs.getD j ""))

/-- One melted row (line 82): the `id_vars` values, the supplier-country
value used by `adjust_dt`, the originating month header, and the raw
quantity cell. -/
structure MRow where
  meta : List String
  country : String
  col : String
  qty : String
  deriving DecidableEq

/-- `df.melt(id_vars, value_vars=month_cols, ...)`: pandas stacks the rows
of each month column in turn. -/
def meltNDC (hs : List String) (ci : Nat) (rows : List (List String)) : List MRow :=
  (monthIdxs hs).flatMap (fun j => rows.map (fun r =>
    ⟨(idIdxs hs).map (fun i => r.getD i ""), r.getD ci "", hs.getD j "", r.getD j ""⟩))

/-- The month-level effect of `adjust_dt` on a parsed month. -/
def ndcAdjM (p : Int × Nat) (country : String) : Int × Nat := ymOf (adjust_dt p country)

/-- `AdjustedMonth` (lines 106-107): adjust the parsed month and format it
as `%b-%y`.  Only applied to rows whose header parsed. -/
def labelOf (adjM : Int × Nat → String → Int × Nat) (e : MRow) : String :=
  match parse_month_string e.col with
  | some p => fmtLabel (adjM p e.country).1 (adjM p e.country).2
  | none => ""

/-- The sort key comparison of lines 125-127: labels compare by their
re-parsed timestamps (an unparseable label would sort first; in this
pipeline every label is a `%b-%y` rendering and always re-parses). -/
def labelLeB (a b : String) : Bool :=
  match parse_month_string a, parse_month_string b with
  | none, _ => true
  | some _, none => false
  | some p, some q => decide (p.1 < q.1 ∨ (p.1 = q.1 ∧ p.2 ≤ q.2))

def labelLe (a b : String) : Prop := labelLeB a b = true

instance : DecidableRel labelLe := fun a b => inferInstanceAs (Decidable (labelLeB a b = true))

/-- Chronological reordering of the pivot columns (lines 122-129).  Python
uses a stable mergesort; insertion sort agrees with it here because the
labels are distinct and (being `%b-%y` renderings) have distinct keys. -/
def sortMonths (ls : List String) : List String := List.insertionSort labelLe ls

/-- The summed quantity of the pivot cell (metadata key, month label):
`groupby(meta + AdjustedMonth).sum` followed by `pivot_table(aggfunc="sum",
fill_value=0)`. -/
def cellSum (adjM : Int × Nat → String → Int × Nat) (kept : List MRow)
    (k : List String) (lbl : String) : QV :=
  qSum ((kept.filter (fun e => decide (e.meta = k) && decide (labelOf adjM e = lbl))).map
    (fun e => cleanQty e.qty))

/-- Group and pivot (lines 113-129).  Row keys are listed in first-melt
order rather than in the sorted order pandas gives to group keys; no claim
below concerns the output row order. -/
def pivotNDC (adjM : Int × Nat → String → Int × Nat) (kept : List MRow)
    (hs : List String) : WideOut :=
  { metaNames := (idIdxs hs).map (fun i => hs.getD i ""),
    months := sortMonths ((kept.map (labelOf adjM)).dedup),
    rows := ((kept.map (fun e => e.meta)).dedup).map
      (fun k => (k, (sortMonths ((kept.map (labelOf adjM)).dedup)).map (cellSum adjM kept k))) }

/-- `transform_ndc`, parameterised by the month-adjustment function so the
no-adjustment instance (`fun p c => p`) can be stated next to the code
instance `ndcAdjM`.  Error strings stand for the `ValueError`s raised at
lines 72, 78 and 91; an empty input returns an empty frame (lines 59-60). -/
def ndcPipeline (adjM : Int × Nat → String → Int × Nat) (t : NTable) :
    Except String WideOut :=
  if t.rows = [] then .ok ⟨[], [], []⟩
  else
    match (ndcCleanHeaders t).find? isSupplierHeader, countryIdx (ndcCleanHeaders t) with
    | some _, some ci =>
      if monthIdxs (ndcCleanHeaders t) = [] then .error "No month columns detected"
      else
        match (meltNDC (ndcCleanHeaders t) ci t.rows).filter
            (fun e => (parse_month_string e.col).isSome) with
        | [] => .error "After parsing month headers no valid month values remained"
        | e :: kept => .ok (pivotNDC adjM (e :: kept) (ndcCleanHeaders t))
    | _, _ => .error "Missing Supplier or Supplier Country columns"

/-- `transform_ndc` (NDC_Calculation.py lines 58-133). -/
def transform_ndc (t : NTable) : Except String WideOut := ndcPipeline ndcAdjM t

instance : DecidableEq (Except String WideOut) := fun x y =>
  match x, y with
  | .ok a, .ok b =>
    if h : a = b then isTrue (by rw [h]) else isFalse (fun hh => h (Except.ok.inj hh))
  | .error a, .error b =>
    if h : a = b then isTrue (by rw [h]) else isFalse (fun hh => h (Except.error.inj hh))
  | .ok _, .error _ => isFalse (fun hh => Except.noConfusion hh)
  | .error _, .ok _ => isFalse (fun hh => Except.noConfusion hh)

/-- Strict chronological order on (year, month) pairs. -/
def ymLt (p q : Int × Nat) : Prop := p.1 < q.1 ∨ (p.1 = q.1 ∧ p.2 < q.2)

instance (p q : Int × Nat) : Decidable (ymLt p q) := by
  unfold ymLt; infer_instance

/-! ## Claim C5: are zero-quantity rows dropped? -/

/-- C5 counterexample — the NDC wide transform does not drop rows with
cleaned quantity 0: on the claim scenario row (Nov-25 = 100, Dec-25 = 0,
country India) the zero Dec-25 cell survives melt and grouping and
produces an output column for its adjusted month ("Aug-25") filled with
0, where the claim predicts that an all-zero month contributes no output
column.  (The code also always lead-time-adjusts: there is no
no-adjustment wide path, so the Dec-25 bucket appears as Aug-25.) -/
theorem c5_counterexample_zero_rows_kept :
    transform_ndc ⟨["Article", "Supplier", "Supplier Country", "Nov-25", "Dec-25"],
                   [["A1", "Acme", "India", "100", "0"]]⟩ =
    .ok ⟨["Article", "Supplier", "Supplier Country"], ["Jul-25", "Aug-25"],
         [(["A1", "Acme", "India"], [(100, 1), (0, 1)])]⟩ ∧
    cleanQty "0" = ((0 : Int), (1 : Nat)) := by decide

/-! ## Claim C6: unparseable month headers -/

/-- C6 counterexample — the header "janx-9999x" is detected as a
month-bearing column but fails every supported encoding; the claim says
the run must abort with a parse error carrying that header.  Instead the
transform succeeds: the melted rows of the failing column are silently
removed by `dropna` and the output is built from the remaining column
alone. -/
theorem c6_counterexample_bad_header_silently_dropped :
    isMonthCol "janx-9999x".data = true ∧
    parse_month_string "janx-9999x" = none ∧
    transform_ndc ⟨["Supplier", "Supplier Country", "Nov-25", "janx-9999x"],
                   [["Acme", "India", "100", "7"]]⟩ =
    .ok ⟨["Supplier", "Supplier Country"], ["Jul-25"],
         [(["Acme", "India"], [(100, 1)])]⟩ := by decide

/-! ## Claim C7: round trip of the display format -/

set_option maxRecDepth 40000 in
/-- Helper: over the years that `strptime` `%y` can reproduce
(1969–2068), re-parsing the `%b-%y` rendering recovers the month. -/
theorem parse_fmtLabel_roundtrip (y : Int) (m : Nat)
    (h1 : 1969 ≤ y) (h2 : y ≤ 2068) (h3 : 1 ≤ m) (h4 : m ≤ 12) :
    parse_month_string (fmtLabel y m) = some (y, m) := by
  have H : ∀ z ∈ Finset.Icc (1969 : ℤ) 2068, ∀ k ∈ Finset.Icc (1 : ℕ) 12,
      parse_month_string (fmtLabel z k) = some (z, k) := by decide
  exact H y (Finset.mem_Icc.2 ⟨h1, h2⟩) m (Finset.mem_Icc.2 ⟨h3, h4⟩)

/-- C7 (amended) — formatting a pipeline month as `<Mon>-<yy>` and
re-parsing it yields the same month for every year in 1969–2068: the
two-digit year is interpreted as 2000 + yy only for yy ≤ 68, and as
1900 + yy for yy ≥ 69 (POSIX pivot), so the round trip holds exactly on
that window. -/
theorem c7_roundtrip_on_strptime_window (y : Int) (m : Nat)
    (h1 : 1969 ≤ y) (h2 : y ≤ 2068) (h3 : 1 ≤ m) (h4 : m ≤ 12) :
    parse_month_string (fmtLabel y m) = some (y, m) :=
  parse_fmtLabel_roundtrip y m h1 h2 h3 h4

theorem c7_roundtrip_witness :
    parse_month_string (fmtLabel 2025 11) = some (2025, 11) ∧ fmtLabel 2025 11 = "Nov-25" :=
  ⟨c7_roundtrip_on_strptime_window 2025 11 (by norm_num) (by norm_num) (by norm_num)
      (by norm_num), by decide⟩

/-- C7 counterexample — the pipeline can produce the month (2069, 3)
(input header "Jul-2069", foreign offset), whose rendering "Mar-69"
re-parses to (1969, 3): the round trip fails outside 1969–2068, because
`%y` maps 69 to 1969, not to 2069 as the claim asserts. -/
theorem c7_counterexample_roundtrip_fails_2069 :
    transform_ndc ⟨["Supplier", "Supplier Country", "Jul-2069"],
                   [["Acme", "India", "60"]]⟩ =
    .ok ⟨["Supplier", "Supplier Country"], ["Mar-69"],
         [(["Acme", "India"], [(60, 1)])]⟩ ∧
    ndcAdjM (2069, 7) "India" = (2069, 3) ∧
    fmtLabel 2069 3 = "Mar-69" ∧
    parse_month_string "Mar-69" = some (1969, 3) ∧
    ((1969 : Int), (3 : Nat)) ≠ ((2069 : Int), (3 : Nat)) := by decide

/-! ## Claim C8: column order -/

/-- C8 counterexample — the transform orders month columns by their
re-parsed `%b-%y` labels, and `%y` folds years into 1969–2068: on input
months Nov-2068 and Apr-2070 the adjusted months are Jul-2068 and
Dec-2069 (so chronological order is Jul-68 before Dec-69), yet the output
lists "Dec-69" first because it re-parses to December 1969. -/
theorem c8_counterexample_columns_not_chronological :
    transform_ndc ⟨["Article", "Supplier", "Supplier Country", "Nov-2068", "Apr-2070"],
                   [["A1", "Acme", "India", "100", "50"]]⟩ =
    .ok ⟨["Article", "Supplier", "Supplier Country"], ["Dec-69", "Jul-68"],
         [(["A1", "Acme", "India"], [(50, 1), (100, 1)])]⟩ ∧
    ndcAdjM (2068, 11) "India" = (2068, 7) ∧
    ndcAdjM (2070, 4) "India" = (2069, 12) ∧
    fmtLabel 2068 7 = "Jul-68" ∧
    fmtLabel 2069 12 = "Dec-69" ∧
    ymLt (2068, 7) (2069, 12) := by decide


/-- C6 (amended) — whenever at least one melted row has a parseable month
header (and the supplier columns and some month-like column are present),
the wide transform does not abort: rows whose header fails every encoding
are silently dropped by `dropna`, and every output month column comes
from some melted row whose header did parse.  The run aborts (with a
plain `ValueError`, not a dedicated parse error carrying the header) only
when every melted row fails to parse. -/
theorem c6_amended_unparseable_columns_dropped_not_fatal (t : NTable) (ci : Nat)
    (h1 : ¬ t.rows = [])
    (h2 : ((ndcCleanHeaders t).find? isSupplierHeader).isSome = true)
    (h3 : countryIdx (ndcCleanHeaders t) = some ci)
    (h4 : ¬ monthIdxs (ndcCleanHeaders t) = [])
    (h5 : ¬ (meltNDC (ndcCleanHeaders t) ci t.rows).filter
        (fun e => (parse_month_string e.col).isSome) = []) :
    ∃ w, transform_ndc t = .ok w ∧
      ∀ lbl ∈ w.months, ∃ e ∈ meltNDC (ndcCleanHeaders t) ci t.rows,
        (parse_month_string e.col).isSome = true ∧ lbl = labelOf ndcAdjM e := by
  obtain ⟨s, hs⟩ := Option.isSome_iff_exists.1 h2
  cases hL : (meltNDC (ndcCleanHeaders t) ci t.rows).filter
      (fun e => (parse_month_string e.col).isSome) with
  | nil => exact absurd hL h5
  | cons e kept =>
    refine ⟨pivotNDC ndcAdjM (e :: kept) (ndcCleanHeaders t), ?_, ?_⟩
    · simp only [transform_ndc, ndcPipeline, if_neg h1, hs, h3, if_neg h4, hL]
    · intro lbl hlbl
      have h6 : lbl ∈ ((e :: kept).map (labelOf ndcAdjM)).dedup := by
        simpa [pivotNDC, sortMonths, List.mem_insertionSort] using hlbl
      have h7 : lbl ∈ (e :: kept).map (labelOf ndcAdjM) := List.mem_dedup.1 h6
      obtain ⟨e2, he2, rfl⟩ := List.mem_map.1 h7
      have h8 : e2 ∈ (meltNDC (ndcCleanHeaders t) ci t.rows).filter
          (fun e => (parse_month_string e.col).isSome) := hL ▸ he2
      have h9 := List.mem_filter.1 h8
      exact ⟨e2, h9.1, h9.2, rfl⟩

theorem c6_amended_witness :
    ∃ w, transform_ndc ⟨["Supplier", "Supplier Country", "Nov-25", "janx-9999x"],
                        [["Acme", "India", "100", "7"]]⟩ = .ok w ∧
      ∀ lbl ∈ w.months, ∃ e ∈ meltNDC (ndcCleanHeaders
          ⟨["Supplier", "Supplier Country", "Nov-25", "janx-9999x"],
           [["Acme", "India", "100", "7"]]⟩) 1
          [["Acme", "India", "100", "7"]],
        (parse_month_string e.col).isSome = true ∧ lbl = labelOf ndcAdjM e :=
  c6_amended_unparseable_columns_dropped_not_fatal
    ⟨["Supplier", "Supplier Country", "Nov-25", "janx-9999x"],
     [["Acme", "India", "100", "7"]]⟩ 1
    (by decide) (by decide) (by decide) (by decide) (by decide)

instance : IsTotal String labelLe := ⟨by
  intro a b
  unfold labelLe labelLeB
  rcases parse_month_string a with _ | p
  · left; rfl
  · rcases parse_month_string b with _ | q
    · right; rfl
    · simp only [decide_eq_true_eq]
      rcases lt_trichotomy p.1 q.1 with h | h | h
      · left; exact Or.inl h
      · rcases Nat.le_total p.2 q.2 with h2 | h2
        · left; exact Or.inr ⟨h, h2⟩
        · right; exact Or.inr ⟨h.symm, h2⟩
      · right; exact Or.inl h⟩

instance : IsTrans String labelLe := ⟨by
  intro a b c hab hbc
  unfold labelLe labelLeB at hab hbc ⊢
  cases hpa : parse_month_string a <;>
    cases hpb : parse_month_string b <;>
    cases hpc : parse_month_string c <;>
    (try simp only [hpa, hpb, hpc, decide_eq_true_eq] at hab hbc ⊢) <;>
    first
      | rfl
      | trivial
      | exact hab.elim
      | exact hbc.elim
      | exact Bool.noConfusion hab
      | exact Bool.noConfusion hbc
      | omega⟩

/-- The adjusted (year, month) of a melted row whose header parsed. -/
def adjOf (e : MRow) : Int × Nat :=
  ndcAdjM ((parse_month_string e.col).getD ((0 : Int), (1 : Nat))) e.country

theorem labelOf_eq_fmtLabel_adjOf (e : MRow)
    (h : (parse_month_string e.col).isSome = true) :
    labelOf ndcAdjM e = fmtLabel (adjOf e).1 (adjOf e).2 := by
  obtain ⟨p, hp⟩ := Option.isSome_iff_exists.1 h
  simp [labelOf, adjOf, hp]

/-- C8 (amended) — whenever every adjusted month lies in the years
1969–2068 (the window that the `%b-%y` labels can faithfully encode), the
output month columns are strictly ascending in the chronological order of
their (year, month) value, each named `<Mon>-<yy>`; the metadata columns
form the separate prefix of the output.  Outside that window the columns
are ordered by the re-parsed label instead (see the counterexample). -/
theorem c8_amended_columns_chronological_in_window (t : NTable) (ci : Nat)
    (h1 : ¬ t.rows = [])
    (h2 : ((ndcCleanHeaders t).find? isSupplierHeader).isSome = true)
    (h3 : countryIdx (ndcCleanHeaders t) = some ci)
    (h4 : ¬ monthIdxs (ndcCleanHeaders t) = [])
    (h5 : ¬ (meltNDC (ndcCleanHeaders t) ci t.rows).filter
        (fun e => (parse_month_string e.col).isSome) = [])
    (hwin : ∀ e ∈ (meltNDC (ndcCleanHeaders t) ci t.rows).filter
        (fun e => (parse_month_string e.col).isSome),
        1969 ≤ (adjOf e).1 ∧ (adjOf e).1 ≤ 2068 ∧ 1 ≤ (adjOf e).2 ∧ (adjOf e).2 ≤ 12) :
    ∃ w, transform_ndc t = .ok w ∧
      (∀ lbl ∈ w.months, ∃ y : Int, ∃ m : Nat,
         1969 ≤ y ∧ y ≤ 2068 ∧ 1 ≤ m ∧ m ≤ 12 ∧
         lbl = fmtLabel y m ∧ parse_month_string lbl = some (y, m)) ∧
      w.months.Pairwise (fun a b => ∀ pa pb, parse_month_string a = some pa →
          parse_month_string b = some pb → ymLt pa pb) := by
  cases hL : (meltNDC (ndcCleanHeaders t) ci t.rows).filter
      (fun e => (parse_month_string e.col).isSome) with
  | nil => exact absurd hL h5
  | cons e kept =>
    obtain ⟨s, hs⟩ := Option.isSome_iff_exists.1 h2
    refine ⟨pivotNDC ndcAdjM (e :: kept) (ndcCleanHeaders t), ?_, ?_, ?_⟩
    · simp only [transform_ndc, ndcPipeline, if_neg h1, hs, h3, if_neg h4, hL]
    · intro lbl hlbl
      have h6 : lbl ∈ ((e :: kept).map (labelOf ndcAdjM)).dedup := by
        simpa [pivotNDC, sortMonths, List.mem_insertionSort] using hlbl
      obtain ⟨e2, he2, rfl⟩ := List.mem_map.1 (List.mem_dedup.1 h6)
      have h8 : e2 ∈ (meltNDC (ndcCleanHeaders t) ci t.rows).filter
          (fun e => (parse_month_string e.col).isSome) := hL ▸ he2
      have h9 := (List.mem_filter.1 h8).2
      obtain ⟨hy1, hy2, hm1, hm2⟩ := hwin e2 h8
      refine ⟨(adjOf e2).1, (adjOf e2).2, hy1, hy2, hm1, hm2,
        labelOf_eq_fmtLabel_adjOf e2 h9, ?_⟩
      rw [labelOf_eq_fmtLabel_adjOf e2 h9]
      exact parse_fmtLabel_roundtrip _ _ hy1 hy2 hm1 hm2
    · -- sortedness: the sorted labels are pairwise ≤ and pairwise distinct
      have hsorted : (pivotNDC ndcAdjM (e :: kept) (ndcCleanHeaders t)).months.Pairwise
          labelLe := List.sorted_insertionSort labelLe _
      have hnodup : (pivotNDC ndcAdjM (e :: kept) (ndcCleanHeaders t)).months.Nodup :=
        (List.perm_insertionSort labelLe _).nodup_iff.2 (List.nodup_dedup _)
      have hform : ∀ lbl ∈ (pivotNDC ndcAdjM (e :: kept) (ndcCleanHeaders t)).months,
          ∃ q : Int × Nat, 1969 ≤ q.1 ∧ q.1 ≤ 2068 ∧ 1 ≤ q.2 ∧ q.2 ≤ 12 ∧
            lbl = fmtLabel q.1 q.2 ∧ parse_month_string lbl = some q := by
        intro lbl hlbl
        have h6 : lbl ∈ ((e :: kept).map (labelOf ndcAdjM)).dedup := by
          simpa [pivotNDC, sortMonths, List.mem_insertionSort] using hlbl
        obtain ⟨e2, he2, rfl⟩ := List.mem_map.1 (List.mem_dedup.1 h6)
        have h8 : e2 ∈ (meltNDC (ndcCleanHeaders t) ci t.rows).filter
            (fun e => (parse_month_string e.col).isSome) := hL ▸ he2
        have h9 := (List.mem_filter.1 h8).2
        obtain ⟨hy1, hy2, hm1, hm2⟩ := hwin e2 h8
        refine ⟨adjOf e2, hy1, hy2, hm1, hm2, labelOf_eq_fmtLabel_adjOf e2 h9, ?_⟩
        rw [labelOf_eq_fmtLabel_adjOf e2 h9]
        exact parse_fmtLabel_roundtrip _ _ hy1 hy2 hm1 hm2
      refine (hsorted.and hnodup).imp_of_mem ?_
      intro a b ha hb hab pa pb hpa hpb
      obtain ⟨qa, _, _, _, _, hfa, hqa⟩ := hform a ha
      obtain ⟨qb, _, _, _, _, hfb, hqb⟩ := hform b hb
      have hpa2 : pa = qa := by rw [hpa] at hqa; exact Option.some.inj hqa
      have hpb2 : pb = qb := by rw [hpb] at hqb; exact Option.some.inj hqb
      subst hpa2; subst hpb2
      have hle : labelLeB a b = true := hab.1
      unfold labelLeB at hle
      rw [hqa, hqb] at hle
      simp only [decide_eq_true_eq] at hle
      have hne : pa ≠ pb := by
        intro hcontr
        exact hab.2 (by rw [hfa, hfb, hcontr])
      have hne2 : pa.1 ≠ pb.1 ∨ pa.2 ≠ pb.2 := by
        by_contra hcc
        push_neg at hcc
        exact hne (Prod.ext hcc.1 hcc.2)
      unfold ymLt
      omega

theorem c8_amended_witness :
    ∃ w, transform_ndc ⟨["Article", "Supplier", "Supplier Country", "Nov-25", "Dec-25"],
                        [["A1", "Acme", "India", "100", "0"]]⟩ = .ok w ∧
      (∀ lbl ∈ w.months, ∃ y : Int, ∃ m : Nat,
         1969 ≤ y ∧ y ≤ 2068 ∧ 1 ≤ m ∧ m ≤ 12 ∧
         lbl = fmtLabel y m ∧ parse_month_string lbl = some (y, m)) ∧
      w.months.Pairwise (fun a b => ∀ pa pb, parse_month_string a = some pa →
          parse_month_string b = some pb → ymLt pa pb) :=
  c8_amended_columns_chronological_in_window
    ⟨["Article", "Supplier", "Supplier Country", "Nov-25", "Dec-25"],
     [["A1", "Acme", "India", "100", "0"]]⟩ 2
    (by decide) (by decide) (by decide) (by decide) (by decide) (by decide)

/-! ## Claim C4: conservation of quantities -/

/-- The total quantity over all cells of the output table. -/
def outputTotal (w : WideOut) : ℚ := (w.rows.map (fun r => (r.2.map qToRat).sum)).sum

theorem qToRat_qAdd (a b : QV) (ha : a.2 ≠ 0) (hb : b.2 ≠ 0) :
    qToRat (qAdd a b) = qToRat a + qToRat b := by
  unfold qToRat qAdd
  have ha2 : ((a.2 : ℚ)) ≠ 0 := Nat.cast_ne_zero.2 ha
  have hb2 : ((b.2 : ℚ)) ≠ 0 := Nat.cast_ne_zero.2 hb
  field_simp

theorem parseNumQ_den_ne_zero (l : List Char) (q : QV) (h : parseNumQ l = some q) :
    q.2 ≠ 0 := by
  unfold parseNumQ at h
  dsimp only [] at h
  repeat' split at h
  all_goals first
    | exact Option.noConfusion h
    | (cases Option.some.inj h; exact one_ne_zero)
    | (cases Option.some.inj h; exact pow_ne_zero _ (by norm_num))

theorem cleanQty_den_ne_zero (s : String) : (cleanQty s).2 ≠ 0 := by
  unfold cleanQty
  cases hp : parseNumQ (pyStrip (s.data.filter (fun c => c ≠ ','))) with
  | none => simp
  | some q => simpa using parseNumQ_den_ne_zero _ q hp

theorem qSum_den_ne_zero (l : List QV) (h : ∀ q ∈ l, q.2 ≠ 0) : (qSum l).2 ≠ 0 := by
  induction l with
  | nil => simp [qSum]
  | cons a t ih =>
    have ha := h a (by simp)
    have ht := ih (fun q hq => h q (by simp [hq]))
    simpa [qSum, qAdd] using Nat.mul_ne_zero ha ht

theorem qToRat_qSum (l : List QV) (h : ∀ q ∈ l, q.2 ≠ 0) :
    qToRat (qSum l) = (l.map qToRat).sum := by
  induction l with
  | nil => simp [qSum, qToRat]
  | cons a t ih =>
    have ha := h a (by simp)
    have ht : ∀ q ∈ t, q.2 ≠ 0 := fun q hq => h q (by simp [hq])
    have hd : (qSum t).2 ≠ 0 := qSum_den_ne_zero t ht
    have : qSum (a :: t) = qAdd a (qSum t) := rfl
    rw [this, qToRat_qAdd a (qSum t) ha hd, ih ht, List.map_cons, List.sum_cons]

/-- Summing a filtered list equals summing indicator values. -/
theorem sum_filter_eq_sum_ite {α : Type} (p : α → Bool) (f : α → ℚ) (l : List α) :
    ((l.filter p).map f).sum = (l.map (fun e => if p e then f e else 0)).sum := by
  induction l with
  | nil => simp
  | cons a t ih =>
    rw [List.filter_cons]
    cases hp : p a <;> simp [hp, ih]

theorem sum_ite_key_of_nodup {K : Type} [DecidableEq K] (ks : List K) (a : K) (c : ℚ)
    (hnd : ks.Nodup) :
    (ks.map (fun k => if a = k then c else 0)).sum = if a ∈ ks then c else 0 := by
  induction ks with
  | nil => simp
  | cons b t ih =>
    rcases List.nodup_cons.1 hnd with ⟨hb, ht⟩
    by_cases hab : a = b
    · subst hab
      have : a ∉ t := hb
      simp [ih ht, this]
    · simp [hab, ih ht]

/-- Partition lemma: summing group cells over all distinct keys recovers
the total of the grouped list. -/
theorem partition_double_sum {K L : Type} [DecidableEq K] [DecidableEq L]
    {α : Type} (f : α → ℚ) (km : α → K) (kl : α → L) (l : List α)
    (ks : List K) (ms : List L) (hks : ks.Nodup) (hms : ms.Nodup)
    (hcov : ∀ e ∈ l, km e ∈ ks ∧ kl e ∈ ms) :
    (ks.map (fun k => (ms.map (fun mo =>
        ((l.filter (fun e => decide (km e = k) && decide (kl e = mo))).map f).sum)).sum)).sum
      = (l.map f).sum := by
  induction l with
  | nil => simp
  | cons a t ih =>
    have hcova := hcov a (by simp)
    have hcovt : ∀ e ∈ t, km e ∈ ks ∧ kl e ∈ ms := fun e he => hcov e (by simp [he])
    have hsplit : ∀ k mo,
        ((List.filter (fun e => decide (km e = k) && decide (kl e = mo)) (a :: t)).map f).sum
          = (if km a = k then (if kl a = mo then f a else 0) else 0) +
            ((List.filter (fun e => decide (km e = k) && decide (kl e = mo)) t).map f).sum := by
      intro k mo
      rw [List.filter_cons]
      by_cases h1 : km a = k
      · by_cases h2 : kl a = mo
        · simp [h1, h2]
        · simp [h1, h2]
      · simp [h1]
    calc (ks.map (fun k => (ms.map (fun mo =>
            ((List.filter (fun e => decide (km e = k) && decide (kl e = mo)) (a :: t)).map
              f).sum)).sum)).sum
        = (ks.map (fun k => (ms.map (fun mo =>
            (if km a = k then (if kl a = mo then f a else 0) else 0) +
            ((List.filter (fun e => decide (km e = k) && decide (kl e = mo)) t).map
              f).sum)).sum)).sum := by
          refine congrArg _ (List.map_congr_left ?_)
          intro k _
          exact congrArg _ (List.map_congr_left (fun mo _ => hsplit k mo))
      _ = (ks.map (fun k =>
            (ms.map (fun mo => if km a = k then (if kl a = mo then f a else 0) else 0)).sum +
            (ms.map (fun mo =>
              ((List.filter (fun e => decide (km e = k) && decide (kl e = mo)) t).map
                f).sum)).sum)).sum := by
          refine congrArg _ (List.map_congr_left ?_)
          intro k _
          exact List.sum_map_add
      _ = (ks.map (fun k =>
            (ms.map (fun mo => if km a = k then (if kl a = mo then f a else 0) else 0)).sum)).sum
          + (ks.map (fun k => (ms.map (fun mo =>
              ((List.filter (fun e => decide (km e = k) && decide (kl e = mo)) t).map
                f).sum)).sum)).sum := List.sum_map_add
      _ = f a + (t.map f).sum := by
          rw [ih hcovt]
          congr 1
          have hinner : ∀ k, (ms.map
              (fun mo => if km a = k then (if kl a = mo then f a else 0) else 0)).sum
              = if km a = k then f a else 0 := by
            intro k
            by_cases h1 : km a = k
            · simp only [h1, if_true]
              rw [sum_ite_key_of_nodup ms (kl a) (f a) hms]
              simp [hcova.2]
            · simp [h1]
          calc (ks.map (fun k => (ms.map
                (fun mo => if km a = k then (if kl a = mo then f a else 0) else 0)).sum)).sum
              = (ks.map (fun k => if km a = k then f a else 0)).sum := by
                exact congrArg _ (List.map_congr_left (fun k _ => hinner k))
            _ = f a := by
                rw [sum_ite_key_of_nodup ks (km a) (f a) hks]
                simp [hcova.1]
      _ = ((a :: t).map f).sum := by simp

theorem qToRat_cellSum (adjM : Int × Nat → String → Int × Nat) (l : List MRow)
    (k : List String) (lbl : String) :
    qToRat (cellSum adjM l k lbl) =
      ((l.filter (fun e => decide (e.meta = k) && decide (labelOf adjM e = lbl))).map
        (fun e => qToRat (cleanQty e.qty))).sum := by
  unfold cellSum
  rw [qToRat_qSum]
  · rw [List.map_map]
    rfl
  · intro q hq
    obtain ⟨e, _, rfl⟩ := List.mem_map.1 hq
    exact cleanQty_den_ne_zero e.qty

theorem sum_filter_nonzero (l : List ℚ) : (l.filter (fun q => q ≠ 0)).sum = l.sum := by
  induction l with
  | nil => rfl
  | cons a t ih =>
    simp only [List.filter_cons, decide_not] at *
    by_cases ha : a = 0
    · simp [ha, ih]
    · simp [ha, ih]

theorem sum_over_pivot_rows {K : Type} (metas : List K) (months : List String)
    (cell : K → String → QV) :
    ((metas.map (fun k => (k, months.map (cell k)))).map
      (fun r : K × List QV => (r.2.map qToRat).sum)).sum
    = (metas.map (fun k => (months.map (fun lbl => qToRat (cell k lbl))).sum)).sum := by
  rw [List.map_map]
  refine congrArg _ (List.map_congr_left ?_)
  intro k _
  show ((months.map (cell k)).map qToRat).sum = _
  rw [List.map_map]
  rfl

/-- The total of a pivoted table equals the total of the grouped list. -/
theorem outputTotal_pivotNDC (adjM : Int × Nat → String → Int × Nat) (l : List MRow)
    (hs : List String) :
    outputTotal (pivotNDC adjM l hs) = (l.map (fun e => qToRat (cleanQty e.qty))).sum := by
  have hswap : ∀ k ∈ (l.map (fun e => e.meta)).dedup,
      ((sortMonths ((l.map (labelOf adjM)).dedup)).map
        (fun lbl => qToRat (cellSum adjM l k lbl))).sum
      = (((l.map (labelOf adjM)).dedup).map
        (fun lbl => qToRat (cellSum adjM l k lbl))).sum := by
    intro k _
    exact ((List.perm_insertionSort labelLe _).map _).sum_eq
  have hcell : ∀ k ∈ (l.map (fun e => e.meta)).dedup,
      (((l.map (labelOf adjM)).dedup).map
        (fun lbl => qToRat (cellSum adjM l k lbl))).sum
      = (((l.map (labelOf adjM)).dedup).map
        (fun lbl => ((l.filter (fun e =>
            decide (e.meta = k) && decide (labelOf adjM e = lbl))).map
          (fun e => qToRat (cleanQty e.qty))).sum)).sum := by
    intro k _
    exact congrArg _ (List.map_congr_left (fun lbl _ => qToRat_cellSum adjM l k lbl))
  simp only [outputTotal, pivotNDC]
  rw [sum_over_pivot_rows]
  refine Eq.trans (congrArg _ (List.map_congr_left hswap)) ?_
  refine Eq.trans (congrArg _ (List.map_congr_left hcell)) ?_
  have hpart := partition_double_sum (fun e : MRow => qToRat (cleanQty e.qty))
    (fun e => e.meta) (labelOf adjM) l ((l.map (fun e => e.meta)).dedup)
    ((l.map (labelOf adjM)).dedup) (List.nodup_dedup _) (List.nodup_dedup _)
    (fun e he => ⟨List.mem_dedup.2 (List.mem_map_of_mem _ he),
      List.mem_dedup.2 (List.mem_map_of_mem _ he)⟩)
  exact hpart

/-- C4 — conservation: for every wide-shape input on which the pipeline
succeeds cleanly (supplier columns present, month columns detected, and
every melted month header parseable), and for every month-adjustment
function (in particular the identity, i.e. no adjustment, and the
lead-time `ndcAdjM` the code uses), the sum of all numeric cells of the
output equals the sum of the non-zero cleaned input quantities of the
month-bearing columns: melt, group and pivot neither lose nor duplicate
quantity. -/
theorem c4_conservation_melt_group_pivot (adjM : Int × Nat → String → Int × Nat)
    (t : NTable) (ci : Nat)
    (h1 : ¬ t.rows = [])
    (h2 : ((ndcCleanHeaders t).find? isSupplierHeader).isSome = true)
    (h3 : countryIdx (ndcCleanHeaders t) = some ci)
    (h4 : ¬ monthIdxs (ndcCleanHeaders t) = [])
    (h5 : ∀ e ∈ meltNDC (ndcCleanHeaders t) ci t.rows,
        (parse_month_string e.col).isSome = true) :
    ∃ w, ndcPipeline adjM t = .ok w ∧
      outputTotal w =
        (((meltNDC (ndcCleanHeaders t) ci t.rows).map
            (fun e => qToRat (cleanQty e.qty))).filter (fun q => q ≠ 0)).sum := by
  obtain ⟨s, hs⟩ := Option.isSome_iff_exists.1 h2
  have hfe : (meltNDC (ndcCleanHeaders t) ci t.rows).filter
      (fun e => (parse_month_string e.col).isSome) = meltNDC (ndcCleanHeaders t) ci t.rows :=
    List.filter_eq_self.2 h5
  have hmelt_ne : ¬ meltNDC (ndcCleanHeaders t) ci t.rows = [] := by
    obtain ⟨j, hj⟩ : ∃ j, j ∈ monthIdxs (ndcCleanHeaders t) := by
      cases hmi : monthIdxs (ndcCleanHeaders t) with
      | nil => exact absurd hmi h4
      | cons a _ => exact ⟨a, by simp [hmi]⟩
    obtain ⟨r, hr⟩ : ∃ r, r ∈ t.rows := by
      cases hrr : t.rows with
      | nil => exact absurd hrr h1
      | cons a _ => exact ⟨a, by simp [hrr]⟩
    intro hcontr
    have hmem : (⟨(idIdxs (ndcCleanHeaders t)).map (fun i => r.getD i ""), r.getD ci "",
        (ndcCleanHeaders t).getD j "", r.getD j ""⟩ : MRow) ∈
        meltNDC (ndcCleanHeaders t) ci t.rows := by
      unfold meltNDC
      exact List.mem_flatMap.2 ⟨j, hj, List.mem_map.2 ⟨r, hr, rfl⟩⟩
    rw [hcontr] at hmem
    exact absurd hmem (List.not_mem_nil _)
  refine ⟨pivotNDC adjM (meltNDC (ndcCleanHeaders t) ci t.rows) (ndcCleanHeaders t), ?_, ?_⟩
  · cases hm : meltNDC (ndcCleanHeaders t) ci t.rows with
    | nil => exact absurd hm hmelt_ne
    | cons e kept =>
      rw [hm] at hfe
      simp only [ndcPipeline, if_neg h1, hs, h3, if_neg h4, hm, hfe]
  · rw [sum_filter_nonzero]
    exact outputTotal_pivotNDC adjM _ _

theorem c4_conservation_witness :
    ∃ w, ndcPipeline ndcAdjM
        ⟨["Article", "Supplier", "Supplier Country", "Nov-25", "Dec-25"],
         [["A1", "Acme", "India", "100", "0"]]⟩ = .ok w ∧
      outputTotal w =
        (((meltNDC (ndcCleanHeaders
              ⟨["Article", "Supplier", "Supplier Country", "Nov-25", "Dec-25"],
               [["A1", "Acme", "India", "100", "0"]]⟩) 2
            [["A1", "Acme", "India", "100", "0"]]).map
            (fun e => qToRat (cleanQty e.qty))).filter (fun q => q ≠ 0)).sum :=
  c4_conservation_melt_group_pivot ndcAdjM
    ⟨["Article", "Supplier", "Supplier Country", "Nov-25", "Dec-25"],
     [["A1", "Acme", "India", "100", "0"]]⟩ 2
    (by decide) (by decide) (by decide) (by decide) (by decide)

/-! ### The VS Bra long-shape transform (`transform_vs_bra`, VSBra.py lines 95-137) -/

/-- One row of the VS Bra buy sheet after column resolution: the eleven
identity cell values, the REQ. Ex-mill date cell as parsed by
`pd.to_datetime(..., errors="coerce")` (a library call, modelled as an
already-parsed optional date; `none` is NaT), and the raw quantity cell. -/
structure VRow where
  idv : List String
  exmill : Option (Int × Nat × Nat)
  qty : String
  deriving DecidableEq

/-- `df["MCU Month"] = df[exmill_col].dt.strftime("%b-%y")` (line 111). -/
def vLabel (r : VRow) : String :=
  match r.exmill with
  | some d => fmtLabel d.1 d.2.1
  | none => ""

/-- A pivot cell: summed quantity over the rows with this identity key and
month label (lines 120-126). -/
def vCell (nz : List VRow) (k : List String) (lbl : String) : QV :=
  qSum ((nz.filter (fun r => decide (r.idv = k) && decide (vLabel r = lbl))).map
    (fun r => cleanQty r.qty))

/-- `transform_vs_bra` (VSBra.py lines 95-137) after column resolution:
drop rows whose Ex-mill date failed to parse (line 97), clean the
quantity and drop rows whose cleaned quantity is 0 (lines 102-108), label
by month, pivot on the identity columns and order the month columns
chronologically (lines 119-135; VS Bra re-parses the labels with the
single format `%b-%y`, which agrees with `sortMonths` on these labels).
`idNames` are the resolved identity column names. -/
def transform_vs_bra (idNames : List String) (rows : List VRow) : Except String WideOut :=
  match rows.filter (fun r => r.exmill.isSome) with
  | [] => .error "No valid rows after parsing EX-mill dates or Article values"
  | v :: valid =>
    .ok { metaNames := idNames,
          months := sortMonths (((((v :: valid)).filter
            (fun r => (cleanQty r.qty).1 ≠ 0)).map vLabel).dedup),
          rows := (((((v :: valid)).filter
            (fun r => (cleanQty r.qty).1 ≠ 0)).map (fun r => r.idv)).dedup).map
            (fun k => (k, (sortMonths (((((v :: valid)).filter
                (fun r => (cleanQty r.qty).1 ≠ 0)).map vLabel).dedup)).map
              (vCell (((v :: valid)).filter (fun r => (cleanQty r.qty).1 ≠ 0)) k))) }

/-- C5 (amended) — in the long-shape VS Bra transform, rows with cleaned
quantity exactly 0 are dropped before aggregation: every month column of
the output comes from some input row whose Ex-mill date parsed and whose
cleaned quantity is non-zero.  (The NDC wide transform instead retains
zero quantities, so there an all-zero month still yields a zero-filled
output column — see the counterexample.) -/
theorem c5_amended_vsbra_drops_zero_rows (idNames : List String) (rows : List VRow)
    (w : WideOut) (h : transform_vs_bra idNames rows = .ok w) :
    ∀ lbl ∈ w.months, ∃ r ∈ rows, r.exmill.isSome = true ∧
      (cleanQty r.qty).1 ≠ 0 ∧ lbl = vLabel r := by
  unfold transform_vs_bra at h
  cases hv : rows.filter (fun r => r.exmill.isSome) with
  | nil =>
    rw [hv] at h
    exact Except.noConfusion h
  | cons v valid =>
    rw [hv] at h
    cases Except.ok.inj h
    intro lbl hlbl
    have h6 : lbl ∈ (((v :: valid).filter
        (fun r => (cleanQty r.qty).1 ≠ 0)).map vLabel).dedup := by
      simpa [sortMonths, List.mem_insertionSort] using hlbl
    obtain ⟨r, hr, rfl⟩ := List.mem_map.1 (List.mem_dedup.1 h6)
    have h7 := List.mem_filter.1 hr
    have h8 : r ∈ rows.filter (fun r => r.exmill.isSome) := hv ▸ h7.1
    have h9 := List.mem_filter.1 h8
    refine ⟨r, h9.1, h9.2, ?_, rfl⟩
    simpa using h7.2

theorem c5_amended_witness :
    transform_vs_bra ["Supplier"]
      [⟨["Acme"], some (2025, 11, 5), "100"⟩, ⟨["Acme"], some (2025, 12, 5), "0"⟩] =
      .ok ⟨["Supplier"], ["Nov-25"], [(["Acme"], [(100, 1)])]⟩ ∧
    (∀ lbl ∈ (⟨["Supplier"], ["Nov-25"], [(["Acme"], [(100, 1)])]⟩ : WideOut).months,
      ∃ r ∈ [(⟨["Acme"], some (2025, 11, 5), "100"⟩ : VRow),
             ⟨["Acme"], some (2025, 12, 5), "0"⟩],
        r.exmill.isSome = true ∧ (cleanQty r.qty).1 ≠ 0 ∧ lbl = vLabel r) :=
  ⟨by decide,
   c5_amended_vsbra_drops_zero_rows ["Supplier"]
     [⟨["Acme"], some (2025, 11, 5), "100"⟩, ⟨["Acme"], some (2025, 12, 5), "0"⟩]
     ⟨["Supplier"], ["Nov-25"], [(["Acme"], [(100, 1)])]⟩ (by decide)⟩

end MCU
